import Mathlib

/-!
# Name resolution through the routing system (`namesys/routing.go`)

A shallow embedding of `routingResolver` and its methods `cacheGet`, `cacheSet`,
`NewRoutingResolver`, `resolveOnce`, `ResolveN` and `Resolve`, followed by theorems about them.

Conventions of the embedding

* Go `string` and `[]byte` values are byte sequences (`Bytes`); the conversions
  `string(b)`, `[]byte(s)` and `key.Key(b)` are the identity on them.
* `time.Time` is an instant counted in nanoseconds, `time.Duration` a number of
  nanoseconds; `Time.Sub` saturates at the bounds of a signed 64-bit integer as
  the standard library does.
* A method that reads the wall clock takes the reading as an argument.
* Code outside this file (multihash, protobuf, routing, keys, paths) is taken as a
  parameter: the `routing` field of the resolver and the record `Collaborators`.
* A Go result `(v, err)` of which the caller looks at `v` only when `err == nil`
  is an `Except`; `pubkey.Verify`, whose two results are both inspected, is a pair.
* `resolveOnce` returns the Go pair `(path, err)`, the resolver after the call and
  the list of the calls it made to its collaborators and to the logger.
* The mutex only serialises accesses to the map; calls are modelled one at a time.
-/

namespace Namesys

/-- A Go byte sequence (`string` or `[]byte`). -/
abbrev Bytes := List UInt8

/-- The Go type `path.Path`, a string type. -/
abbrev Path := Bytes

/-- The Go type `key.Key`, a string type. -/
abbrev Key := Bytes

/-- An instant of `time.Time`, in nanoseconds. -/
abbrev Time := Int

/-- A `time.Duration`, in nanoseconds. -/
abbrev Duration := Int

/-- The bytes of a string literal made of ASCII characters. -/
def ascii (s : String) : Bytes := s.toList.map (fun c => UInt8.ofNat c.toNat)

/-- The smallest `time.Duration`. -/
def minDuration : Int := -(2 ^ 63)

/-- The largest `time.Duration`. -/
def maxDuration : Int := 2 ^ 63 - 1

/-- The method `Time.Sub`: the difference `t - u`, or the smallest or largest duration
when the difference does not fit. -/
def Time.Sub (t u : Time) : Duration :=
  if t - u < minDuration then minDuration
  else if maxDuration < t - u then maxDuration
  else t - u

/-- Go `error` values met in resolution. -/
inductive Error where
  /-- An error value handed back by a collaborator, with its message. -/
  | collaborator (msg : String)
  /-- The value of `fmt.Errorf("Invalid value. Not signed by PrivateKey corresponding to %v", pubkey)`,
  with the rendering of `pubkey` -/
  | notSigned (pubkey : String)
  /-- The `DepthExceededError` of the chain resolver. -/
  | depthExceeded
  deriving DecidableEq

/-- The interface of a public key: the methods `Verify` and `Hash`, and the rendering
of the key under the `%v` verb. -/
structure PubKey where
  Verify : Bytes → Bytes → Bool × Option Error
  Hash : Bytes × Option Error
  format : String

/-- The interface `routing.IpfsRouting`, of which the resolver calls `GetValue`. -/
structure IpfsRouting where
  GetValue : Key → Except Error Bytes

/-- Modelled from the spec: the record type `pb.IpnsEntry`, whose declaration is not
in this file; the spec gives a record a value field and a signature field, read by
`GetValue()` and `GetSignature()`. -/
structure IpnsEntry where
  Value : Bytes
  Signature : Bytes
  deriving DecidableEq

/-- The functions `resolveOnce` calls that are defined outside `routing.go`. -/
structure Collaborators where
  /-- The function `mh.FromB58String`. -/
  FromB58String : Bytes → Except Error Bytes
  /-- The function `proto.Unmarshal`, into a fresh `pb.IpnsEntry`. -/
  Unmarshal : Bytes → Except Error IpnsEntry
  /-- The function `routing.GetPublicKey`. -/
  GetPublicKey : IpfsRouting → Bytes → Except Error PubKey
  /-- The function `ipnsEntryDataForSig`. -/
  ipnsEntryDataForSig : IpnsEntry → Bytes
  /-- The function `mh.Cast`. -/
  Cast : Bytes → Except Error Bytes
  /-- The function `path.ParsePath`. -/
  ParsePath : Bytes → Except Error Path
  /-- The function `path.FromKey`. -/
  FromKey : Key → Path

/-- The struct `cacheEntry`. -/
structure cacheEntry where
  val : Path
  recvd : Time
  deriving DecidableEq

/-- The struct `routingResolver`; the Go map is a partial function on names. -/
structure routingResolver where
  routing : IpfsRouting
  cache : Bytes → Option cacheEntry
  cachelife : Duration

/-- The method `cacheGet`, at clock reading `now`; it hands back the resolver, which it
only reads. -/
def cacheGet (r : routingResolver) (now : Time) (name : Bytes) :
    (Path × Bool) × routingResolver :=
  match r.cache name with
  | some entry =>
    if Time.Sub now entry.recvd < r.cachelife then ((entry.val, true), r)
    else (([], false), r)
  | none => (([], false), r)

/-- The method `cacheSet`, at clock reading `now`. -/
def cacheSet (r : routingResolver) (now : Time) (name : Bytes) (val : Path) :
    routingResolver :=
  { r with cache := fun n => if n = name then some { val := val, recvd := now } else r.cache n }

/-- The constructor `NewRoutingResolver`; a nil routing system makes it panic. -/
def NewRoutingResolver (route : Option IpfsRouting) (cachelife : Duration) :
    Except String routingResolver :=
  match route with
  | none => .error "attempt to create resolver with nil routing system"
  | some rt => .ok { routing := rt, cache := fun _ => none, cachelife := cachelife }

/-- What a call leaves behind besides its result. -/
inductive Event where
  | debugf (fmt : String) (args : List Bytes)
  | warning (fmt : String) (args : List Bytes)
  | GetValue (k : Key)
  | GetPublicKey (hash : Bytes)
  | Verify (data sig : Bytes) (ok : Bool) (err : Option Error)
  deriving DecidableEq

/-- The result of `resolveOnce`: the Go pair, the resolver afterwards, the calls made. -/
structure Outcome where
  path : Path
  err : Option Error
  r : routingResolver
  trace : List Event

/-- The namespace `"/ipns/"`. -/
def ipns : Bytes := [47, 105, 112, 110, 115, 47]

/-- The method `resolveOnce`; `now₁` is the clock reading in `cacheGet`, `now₂` the one
in `cacheSet`. -/
def resolveOnce (lib : Collaborators) (r : routingResolver) (now₁ now₂ : Time)
    (name : Bytes) : Outcome :=
  let t₀ := [Event.debugf "RoutingResolve: '%s'" [name]]
  match cacheGet r now₁ name with
  | ((cached, true), r) => ⟨cached, none, r, t₀⟩
  | ((_, false), r) =>
    match lib.FromB58String name with
    | .error err =>
      ⟨[], some err, r, t₀ ++ [.warning "RoutingResolve: bad input hash: [%s]\n" [name]]⟩
    | .ok hash =>
      let h : Bytes := ipns ++ hash
      let ipnsKey : Key := h
      let t₁ := t₀ ++ [.GetValue ipnsKey]
      match r.routing.GetValue ipnsKey with
      | .error err => ⟨[], some err, r, t₁ ++ [.warning "RoutingResolve get failed." []]⟩
      | .ok val =>
        match lib.Unmarshal val with
        | .error err => ⟨[], some err, r, t₁⟩
        | .ok entry =>
          let t₂ := t₁ ++ [.GetPublicKey hash]
          match lib.GetPublicKey r.routing hash with
          | .error err => ⟨[], some err, r, t₂⟩
          | .ok pubkey =>
            let hsh := pubkey.Hash.1
            let data := lib.ipnsEntryDataForSig entry
            let v := pubkey.Verify data entry.Signature
            let t₃ := t₂ ++ [.debugf "pk hash = %s" [hsh], .Verify data entry.Signature v.1 v.2]
            if v.2 ≠ none ∨ v.1 = false then
              ⟨[], some (.notSigned pubkey.format), r, t₃⟩
            else
              match lib.Cast entry.Value with
              | .error _ =>
                match lib.ParsePath entry.Value with
                | .error err => ⟨[], some err, r, t₃⟩
                | .ok p => ⟨p, none, cacheSet r now₂ name p, t₃⟩
              | .ok valh =>
                let p := lib.FromKey valh
                ⟨p, none, cacheSet r now₂ name p,
                  t₃ ++ [.warning "Detected old style multihash record" []]⟩

/-- The test `strings.HasPrefix`. -/
def HasPrefix (s pfx : Bytes) : Bool :=
  decide (pfx.length ≤ s.length) && decide (s.take pfx.length = pfx)

/-- The function `strings.TrimPrefix`. -/
def TrimPrefix (s pfx : Bytes) : Bytes := if HasPrefix s pfx then s.drop pfx.length else s

/-- Modelled from the spec: the chain-following loop `resolve`, which is not in
`routing.go`. With `current = name` and `remaining = depth` it repeats: if
`remaining <= 0`, fail with `DepthExceededError`; `p = resolveOnce(current)`, an error
being propagated at once; if `p` lies in the indirection namespace, `current` becomes
the name embedded in `p`, `remaining` is decremented and the loop continues; otherwise
`p` is returned. `rem` is `remaining` when positive and `0` otherwise; `once` is the
single-hop resolver acting on a state of type `σ`. -/
def resolveLoop {σ : Type} (once : σ → Bytes → (Path × Option Error) × σ) (pfx : Bytes) :
    Nat → σ → Bytes → Except Error Path × σ
  | 0, s, _ => (.error .depthExceeded, s)
  | rem + 1, s, current =>
    match once s current with
    | ((_, some err), s') => (.error err, s')
    | ((p, none), s') =>
      if HasPrefix p pfx then resolveLoop once pfx rem s' (TrimPrefix p pfx)
      else (.ok p, s')

/-- Modelled from the spec: the function `resolve(ctx, r, name, depth, prefixes...)`
called by `ResolveN`, which is not in `routing.go`: the loop above started with
`remaining = depth`. -/
def resolve {σ : Type} (once : σ → Bytes → (Path × Option Error) × σ) (s : σ)
    (name : Bytes) (depth : Int) (pfx : Bytes) : Except Error Path × σ :=
  resolveLoop once pfx depth.toNat s name

/-- One hop of a chain resolution on a `routingResolver`: the state pairs the resolver
with the number of hops made, and `clock k` holds the two clock readings of hop `k`. -/
def hop (lib : Collaborators) (clock : Nat → Time × Time) (s : routingResolver × Nat)
    (name : Bytes) : (Path × Option Error) × (routingResolver × Nat) :=
  let o := resolveOnce lib s.1 (clock s.2).1 (clock s.2).2 name
  ((o.path, o.err), (o.r, s.2 + 1))

/-- The method `ResolveN`. -/
def ResolveN (lib : Collaborators) (clock : Nat → Time × Time) (r : routingResolver)
    (name : Bytes) (depth : Int) : Except Error Path × (routingResolver × Nat) :=
  resolve (hop lib clock) (r, 0) name depth ipns

/-- The method `Resolve`; the constant `DefaultDepthLimit` is declared outside
`routing.go` and is a parameter here. -/
def Resolve (DefaultDepthLimit : Int) (lib : Collaborators) (clock : Nat → Time × Time)
    (r : routingResolver) (name : Bytes) : Except Error Path × (routingResolver × Nat) :=
  ResolveN lib clock r name DefaultDepthLimit

/-- A run of `cacheSet` calls, each with its clock reading, name and path. -/
def cacheSets (r : routingResolver) (ops : List (Time × Bytes × Path)) : routingResolver :=
  ops.foldl (fun r op => cacheSet r op.1 op.2.1 op.2.2) r

deriving instance DecidableEq for Except

/-- A chain of `N` hops from `name` to the terminal path `p`, for a single-hop resolver
`once` started in state `s`: each of the first `N - 1` hops returns without error a
path in the namespace `pfx`, whose embedded name the next hop resolves, and hop `N`
returns without error the path `p`, which is not in the namespace. -/
def Chain {σ : Type} (once : σ → Bytes → (Path × Option Error) × σ) (pfx : Bytes) :
    Nat → σ → Bytes → Path → Prop
  | 0, _, _, _ => False
  | 1, s, name, p => (once s name).1 = (p, none) ∧ HasPrefix p pfx = false
  | n + 2, s, name, p =>
    (once s name).1.2 = none ∧ HasPrefix (once s name).1.1 pfx = true ∧
    Chain once pfx (n + 1) (once s name).2 (TrimPrefix (once s name).1.1 pfx) p

/-- The state before hop `k` when the hops resolve `names 0`, `names 1`, ... in turn. -/
def hopState {σ : Type} (once : σ → Bytes → (Path × Option Error) × σ) (names : Nat → Bytes)
    (s : σ) : Nat → σ
  | 0 => s
  | k + 1 => (once (hopState once names s k) (names k)).2

/-- A chain that never reaches a terminal path: hop `k` resolves `names k` and returns
without error the path of `names (k + 1)` in the namespace `pfx`. A self-referential
name is the case of a constant `names`, a cycle the case of a periodic one. -/
def Endless {σ : Type} (once : σ → Bytes → (Path × Option Error) × σ) (pfx : Bytes)
    (names : Nat → Bytes) (s : σ) : Prop :=
  ∀ k, (once (hopState once names s k) (names k)).1 = (pfx ++ names (k + 1), none)

/-- The number of routing `GetValue` calls in a list of calls. -/
def routingCalls (t : List Event) : Nat :=
  (t.filter (fun ev => match ev with | .GetValue _ => true | _ => false)).length

/-- The calls that reach a collaborator: routing fetch, key lookup, verification. -/
def Event.isCall : Event → Bool
  | .GetValue _ => true
  | .GetPublicKey _ => true
  | .Verify _ _ _ _ => true
  | _ => false

/-- The collaborators `lib` with the key lookup changed in one respect: the method `Hash`
of every key it returns answers `hk`; `Verify` and the rendering of the key are kept. -/
def withKeyHash (lib : Collaborators) (hk : Bytes × Option Error) : Collaborators :=
  { lib with
    GetPublicKey := fun rt hash =>
      match lib.GetPublicKey rt hash with
      | .ok k => .ok { k with Hash := hk }
      | .error err => .error err }

/-- The resolvers that `NewRoutingResolver` followed by `resolveOnce` calls can produce,
when `mh.FromB58String` is the function `decode`. Between two calls the routing system
may come to answer differently, and so may the other collaborators. -/
inductive Reachable (decode : Bytes → Except Error Bytes) : routingResolver → Prop where
  | new (rt : IpfsRouting) (cachelife : Duration) (r : routingResolver) :
      NewRoutingResolver (some rt) cachelife = .ok r → Reachable decode r
  | call (lib : Collaborators) (r : routingResolver) (now₁ now₂ : Time) (name : Bytes) :
      lib.FromB58String = decode → Reachable decode r →
      Reachable decode (resolveOnce lib r now₁ now₂ name).r
  | network (r : routingResolver) (rt : IpfsRouting) :
      Reachable decode r → Reachable decode { r with routing := rt }

/-! ## A small concrete world, used to run the definitions -/

/-- A name decodes when it starts with the letter `Q`; the decoded hash is the rest. -/
def demoFromB58String (name : Bytes) : Except Error Bytes :=
  match name with
  | 81 :: rest => .ok rest
  | _ => .error (.collaborator "invalid base58 multihash")

/-- A stored record is its signature byte followed by its value. -/
def demoUnmarshal (val : Bytes) : Except Error IpnsEntry :=
  match val with
  | sig :: value => .ok { Value := value, Signature := [sig] }
  | [] => .error (.collaborator "unexpected EOF")

/-- The key of hash `hash` accepts the signature made of the first byte of `hash`. -/
def demoKey (hash : Bytes) : PubKey :=
  { Verify := fun _ sig => (sig == hash.take 1, none)
    Hash := (hash, none)
    format := "demo key" }

/-- A value casts as a multihash when it starts with the byte of the sha2-256 code. -/
def demoCast (value : Bytes) : Except Error Bytes :=
  match value with
  | 18 :: _ => .ok value
  | _ => .error (.collaborator "not a multihash")

/-- A value parses as a path when it starts with a slash. -/
def demoParsePath (value : Bytes) : Except Error Path :=
  match value with
  | 47 :: _ => .ok value
  | _ => .error (.collaborator "invalid ipfs path")

/-- The collaborators of the concrete world. -/
def demoLib : Collaborators :=
  { FromB58String := demoFromB58String
    Unmarshal := demoUnmarshal
    GetPublicKey := fun _ hash => .ok (demoKey hash)
    ipnsEntryDataForSig := fun e => e.Value
    Cast := demoCast
    ParsePath := demoParsePath
    FromKey := fun k => ascii "/ipfs/" ++ k }

/-- A routing system holding the records of `table`. -/
def demoRouting (table : List (Key × Bytes)) : IpfsRouting :=
  { GetValue := fun k =>
      match table.lookup k with
      | some v => .ok v
      | none => .error (.collaborator "routing: not found") }

/-- A resolver whose cache holds, for the name `QA`, a path received at time 0, under a
lifetime of 10, while routing now holds a record of `QA` with the value `/ipfs/Qnew`. -/
def demoStale : routingResolver :=
  { routing := demoRouting [(ipns ++ ascii "A", 65 :: ascii "/ipfs/Qnew")]
    cache := fun n => if n = ascii "QA" then some ⟨ascii "/ipfs/Qold", 0⟩ else none
    cachelife := 10 }

/-- A resolver whose cache holds, for the name `QA`, a path received at time 0, under a
lifetime of 10, while routing now holds a record of `QA` that the key of `QA` rejects. -/
def demoForged : routingResolver :=
  { routing := demoRouting [(ipns ++ ascii "A", 66 :: ascii "/ipfs/Qevil")]
    cache := fun n => if n = ascii "QA" then some ⟨ascii "/ipfs/Qabc", 0⟩ else none
    cachelife := 10 }

/-- A key whose hash is `Z` and which accepts the signature made of the byte `B`. -/
def demoForeignKey : PubKey :=
  { Verify := fun _ sig => (sig == [66], none)
    Hash := (ascii "Z", none)
    format := "foreign key" }

/-- The collaborators of the concrete world with a key lookup that answers the key of
hash `Z` for every name. -/
def demoForeignLib : Collaborators :=
  { demoLib with GetPublicKey := fun _ _ => .ok demoForeignKey }

/-- A resolver over a routing system in which `QA` points to the name `QB`, `QB` points
to `/ipfs/Qabc`, and `QS` points to itself; its lifetime is the smallest duration, so
that no cache entry is ever live. -/
def demoChain : routingResolver :=
  { routing := demoRouting
      [(ipns ++ ascii "A", 65 :: ascii "/ipns/QB"),
       (ipns ++ ascii "B", 66 :: ascii "/ipfs/Qabc"),
       (ipns ++ ascii "S", 83 :: ascii "/ipns/QS")]
    cache := fun _ => none
    cachelife := minDuration }

/-! ## The expiring cache -/

theorem cacheGet_snd (r : routingResolver) (now : Time) (name : Bytes) :
    (cacheGet r now name).2 = r := by
  unfold cacheGet
  split
  · split <;> rfl
  · rfl

theorem cacheGet_of_miss (r : routingResolver) (now : Time) (name : Bytes)
    (h : (cacheGet r now name).1.2 = false) : cacheGet r now name = (([], false), r) := by
  unfold cacheGet at h ⊢
  split
  · rename_i entry he
    simp only [he] at h
    split
    · rename_i hlt
      simp [hlt] at h
    · rfl
  · rfl

theorem cacheGet_hit_iff (r : routingResolver) (now : Time) (name : Bytes) (p : Path) :
    cacheGet r now name = ((p, true), r) ↔
      ∃ e, r.cache name = some e ∧ Time.Sub now e.recvd < r.cachelife ∧ e.val = p := by
  unfold cacheGet
  cases hc : r.cache name with
  | none => simp
  | some entry =>
    by_cases hlt : Time.Sub now entry.recvd < r.cachelife
    · simp [hlt]
    · simp [hlt]

theorem Time.Sub_of_nonneg (t u : Time) (h : u ≤ t) :
    0 ≤ Time.Sub t u ∧ Time.Sub t u ≤ t - u := by
  unfold Time.Sub minDuration maxDuration
  unfold Time Duration at *
  split_ifs with h1 h2 <;> omega

theorem Time.Sub_ge (t u : Time) (d : Duration) (hd : d ≤ maxDuration) (h : d ≤ t - u) :
    d ≤ Time.Sub t u := by
  unfold Time.Sub
  unfold maxDuration minDuration at *
  split_ifs with h1 h2 <;> linarith

theorem cacheSet_cachelife (r : routingResolver) (now : Time) (name : Bytes) (val : Path) :
    (cacheSet r now name val).cachelife = r.cachelife := rfl

theorem cacheSets_cachelife (ops : List (Time × Bytes × Path)) (r : routingResolver) :
    (cacheSets r ops).cachelife = r.cachelife := by
  induction ops generalizing r with
  | nil => rfl
  | cons op ops ih =>
    show (cacheSets (cacheSet r op.1 op.2.1 op.2.2) ops).cachelife = r.cachelife
    rw [ih, cacheSet_cachelife]

theorem cacheSets_other (ops : List (Time × Bytes × Path)) (r : routingResolver) (name : Bytes)
    (h : ∀ op ∈ ops, op.2.1 ≠ name) : (cacheSets r ops).cache name = r.cache name := by
  induction ops generalizing r with
  | nil => rfl
  | cons op ops ih =>
    show (cacheSets (cacheSet r op.1 op.2.1 op.2.2) ops).cache name = r.cache name
    rw [ih _ (fun o ho => h o (List.mem_cons_of_mem _ ho))]
    have hne : name ≠ op.2.1 := fun e => h op (List.mem_cons_self _ _) e.symm
    simp [cacheSet, hne]

theorem cacheSets_recvd (ops : List (Time × Bytes × Path)) (r : routingResolver) (name : Bytes)
    (now : Time) (hops : ∀ op ∈ ops, op.1 ≤ now) (hr : ∀ e, r.cache name = some e → e.recvd ≤ now) :
    ∀ e, (cacheSets r ops).cache name = some e → e.recvd ≤ now := by
  induction ops generalizing r with
  | nil => exact hr
  | cons op ops ih =>
    show ∀ e, (cacheSets (cacheSet r op.1 op.2.1 op.2.2) ops).cache name = some e → e.recvd ≤ now
    apply ih _ (fun o ho => hops o (List.mem_cons_of_mem _ ho))
    intro e he
    simp only [cacheSet] at he
    split at he
    · cases he
      exact hops op (List.mem_cons_self _ _)
    · exact hr e he

/-- C4. Cache round trip: after `cacheSet(name, p)` at time `t0`, whatever the cache held
before and whatever `cacheSet` calls for other names follow, `cacheGet(name)` at a time
`t1 >= t0` with `t1 - t0 < cachelife` returns `(p, true)`; and `cacheSet` makes the entry
of `name` equal to `{val: p, recvd: t0}` whatever it was, leaving the other names alone. -/
theorem cache_round_trip (r : routingResolver) (name : Bytes) (p : Path) (t0 t1 : Time)
    (others : List (Time × Bytes × Path))
    (hle : t0 ≤ t1) (hlt : t1 - t0 < r.cachelife) (hothers : ∀ op ∈ others, op.2.1 ≠ name) :
    (cacheGet (cacheSets (cacheSet r t0 name p) others) t1 name).1 = (p, true) ∧
    (cacheSet r t0 name p).cache name = some { val := p, recvd := t0 } ∧
    (∀ n, n ≠ name → (cacheSet r t0 name p).cache n = r.cache n) ∧
    (cacheSet r t0 name p).cachelife = r.cachelife := by
  have hset : (cacheSet r t0 name p).cache name = some { val := p, recvd := t0 } := by
    simp [cacheSet]
  refine ⟨?_, hset, ?_, rfl⟩
  · have hc := cacheSets_other others (cacheSet r t0 name p) name hothers
    have hl := cacheSets_cachelife others (cacheSet r t0 name p)
    have hsub := (Time.Sub_of_nonneg t1 t0 hle).2
    unfold cacheGet
    rw [hc, hset]
    simp only [hl, cacheSet_cachelife]
    rw [if_pos (by linarith)]
  · intro n hn
    simp [cacheSet, hn]

/-- Witness of C4: a set at time 100 read back at time 109 under a lifetime of 10, over a
previous entry of the name and with another name set in between. -/
theorem cache_round_trip_witness :
    (cacheGet (cacheSets (cacheSet
        { routing := demoRouting [], cache := fun _ => some { val := ascii "/old", recvd := 3 },
          cachelife := 10 } 100 (ascii "QA") (ascii "/ipfs/Qabc"))
        [(105, ascii "QB", ascii "/ipfs/Qdef")]) 109 (ascii "QA")).1 = (ascii "/ipfs/Qabc", true) :=
  (cache_round_trip
    { routing := demoRouting [], cache := fun _ => some { val := ascii "/old", recvd := 3 },
      cachelife := 10 }
    (ascii "QA") (ascii "/ipfs/Qabc") 100 109 [(105, ascii "QB", ascii "/ipfs/Qdef")]
    (by decide) (by decide) (by decide)).1

/-- C5. Cache expiry without eviction: when the cache holds an entry for `name` whose age
`now - recvd` is at least `cachelife` (a `time.Duration`, hence at most `maxDuration`),
`cacheGet(name)` returns the empty path with `found = false` and the resolver, cache
included, is what it was, the expired entry still there; and `cacheGet` of a name with
no entry returns `found = false` and changes nothing either. -/
theorem cache_expiry_without_eviction (r : routingResolver) (now : Time) (name : Bytes)
    (hlife : r.cachelife ≤ maxDuration) :
    (∀ e, r.cache name = some e → r.cachelife ≤ now - e.recvd →
      (cacheGet r now name).1 = ([], false) ∧ (cacheGet r now name).2 = r ∧
      (cacheGet r now name).2.cache name = some e) ∧
    (r.cache name = none →
      (cacheGet r now name).1 = ([], false) ∧ (cacheGet r now name).2 = r) := by
  constructor
  · intro e he hage
    have hsub := Time.Sub_ge now e.recvd r.cachelife hlife hage
    have hget : cacheGet r now name = (([], false), r) := by
      unfold cacheGet
      rw [he]
      simp only
      rw [if_neg (not_lt.mpr hsub)]
    rw [hget]
    exact ⟨rfl, rfl, he⟩
  · intro hnone
    have hget : cacheGet r now name = (([], false), r) := by
      unfold cacheGet
      rw [hnone]
    rw [hget]
    exact ⟨rfl, rfl⟩

/-- Witness of C5: an entry received at time 0 and read at time 10 under a lifetime
of 10 is reported as not found and is still in the cache. -/
theorem cache_expiry_without_eviction_witness :
    (cacheGet { routing := demoRouting [],
                cache := fun n => if n = ascii "QA" then some ⟨ascii "/ipfs/Qabc", 0⟩ else none,
                cachelife := 10 } 10 (ascii "QA")).1 = ([], false) ∧
    (cacheGet { routing := demoRouting [],
                cache := fun n => if n = ascii "QA" then some ⟨ascii "/ipfs/Qabc", 0⟩ else none,
                cachelife := 10 } 10 (ascii "QA")).2.cache (ascii "QA")
      = some ⟨ascii "/ipfs/Qabc", 0⟩ :=
  have h := (cache_expiry_without_eviction
    { routing := demoRouting [],
      cache := fun n => if n = ascii "QA" then some ⟨ascii "/ipfs/Qabc", 0⟩ else none,
      cachelife := 10 } 10 (ascii "QA") (by decide)).1 ⟨ascii "/ipfs/Qabc", 0⟩
      (by decide) (by decide)
  ⟨h.1, h.2.2⟩

/-- C10. Zero lifetime disables caching: in a resolver built by `NewRoutingResolver` with
`cachelife = 0`, after any run of `cacheSet` calls, at any time `now` not earlier than
the clock readings of those calls, `cacheGet` of any name returns `found = false`; and
`resolveOnce` then goes on to decode the name: it returns the decoding error when there
is one, and calls the routing `GetValue` on `"/ipns/" + hash` otherwise. -/
theorem zero_lifetime_disables_caching (rt : IpfsRouting) (r0 : routingResolver)
    (hnew : NewRoutingResolver (some rt) 0 = .ok r0)
    (ops : List (Time × Bytes × Path)) (now now₂ : Time) (hnow : ∀ op ∈ ops, op.1 ≤ now)
    (lib : Collaborators) (name : Bytes) :
    (cacheGet (cacheSets r0 ops) now name).1 = ([], false) ∧
    (∀ err, lib.FromB58String name = .error err →
      (resolveOnce lib (cacheSets r0 ops) now now₂ name).path = [] ∧
      (resolveOnce lib (cacheSets r0 ops) now now₂ name).err = some err) ∧
    (∀ hash, lib.FromB58String name = .ok hash →
      Event.GetValue (ipns ++ hash) ∈ (resolveOnce lib (cacheSets r0 ops) now now₂ name).trace) := by
  have hr0 : r0 = { routing := rt, cache := fun _ => none, cachelife := 0 } := by
    simp only [NewRoutingResolver] at hnew
    cases hnew
    rfl
  have hlife : (cacheSets r0 ops).cachelife = 0 := by
    rw [cacheSets_cachelife, hr0]
  have hrecvd := cacheSets_recvd ops r0 name now hnow (by
    intro e he
    rw [hr0] at he
    cases he)
  have hmiss : cacheGet (cacheSets r0 ops) now name = (([], false), cacheSets r0 ops) := by
    unfold cacheGet
    cases hc : (cacheSets r0 ops).cache name with
    | none => rfl
    | some e =>
      have h0 := (Time.Sub_of_nonneg now e.recvd (hrecvd e hc)).1
      simp only [hlife]
      rw [if_neg (not_lt.mpr h0)]
  refine ⟨by rw [hmiss], ?_, ?_⟩
  · intro err herr
    unfold resolveOnce
    simp [hmiss, herr]
  · intro hash hhash
    unfold resolveOnce
    simp only [hmiss, hhash]
    repeat (any_goals split)
    all_goals simp

/-- Witness of C10: with a zero lifetime, an entry set at time 7 is not found at time 7. -/
theorem zero_lifetime_disables_caching_witness :
    (cacheGet (cacheSets { routing := demoRouting [], cache := fun _ => none, cachelife := 0 }
      [(7, ascii "QA", ascii "/ipfs/Qabc")]) 7 (ascii "QA")).1 = ([], false) :=
  (zero_lifetime_disables_caching (demoRouting [])
    { routing := demoRouting [], cache := fun _ => none, cachelife := 0 } rfl
    [(7, ascii "QA", ascii "/ipfs/Qabc")] 7 8 (by decide) demoLib (ascii "QA")).1

/-! ## The single-hop resolver -/

theorem cacheGet_eq (r : routingResolver) (now : Time) (name : Bytes) :
    cacheGet r now name = ((cacheGet r now name).1, r) :=
  Prod.ext rfl (cacheGet_snd r now name)

theorem resolveOnce_hit (lib : Collaborators) (r : routingResolver) (now₁ now₂ : Time)
    (name : Bytes) (p : Path) (h : (cacheGet r now₁ name).1 = (p, true)) :
    resolveOnce lib r now₁ now₂ name =
      ⟨p, none, r, [Event.debugf "RoutingResolve: '%s'" [name]]⟩ := by
  have hc := cacheGet_eq r now₁ name
  rw [h] at hc
  unfold resolveOnce
  simp only [hc]

/-- The three ways a call of `resolveOnce` can go: a cache hit, which returns the cached
path and makes no call; a miss that ends in an error, which leaves the resolver as it
was; a miss that fetches a record of a name that decodes, sees `Verify` answer
`(true, nil)`, and returns a path without error after `cacheSet` of that path. -/
theorem resolveOnce_cases (lib : Collaborators) (r : routingResolver) (now₁ now₂ : Time)
    (name : Bytes) :
    (∃ p, (cacheGet r now₁ name).1 = (p, true) ∧
      resolveOnce lib r now₁ now₂ name
        = ⟨p, none, r, [Event.debugf "RoutingResolve: '%s'" [name]]⟩) ∨
    ((cacheGet r now₁ name).1.2 = false ∧
      (resolveOnce lib r now₁ now₂ name).err ≠ none ∧
      (resolveOnce lib r now₁ now₂ name).r = r ∧
      routingCalls (resolveOnce lib r now₁ now₂ name).trace ≤ 1) ∨
    ((cacheGet r now₁ name).1.2 = false ∧
      (resolveOnce lib r now₁ now₂ name).err = none ∧
      (resolveOnce lib r now₁ now₂ name).r
        = cacheSet r now₂ name (resolveOnce lib r now₁ now₂ name).path ∧
      (∃ hash, lib.FromB58String name = .ok hash) ∧
      (∃ data sig, Event.Verify data sig true none ∈ (resolveOnce lib r now₁ now₂ name).trace) ∧
      routingCalls (resolveOnce lib r now₁ now₂ name).trace ≤ 1) := by
  have hc := cacheGet_eq r now₁ name
  rcases hv : (cacheGet r now₁ name).1 with ⟨cached, found⟩
  rw [hv] at hc
  cases found with
  | true =>
    left
    exact ⟨cached, rfl, resolveOnce_hit lib r now₁ now₂ name cached hv⟩
  | false =>
    right
    unfold resolveOnce
    simp only [hc]
    cases h1 : lib.FromB58String name with
    | error e => left; simp [routingCalls]
    | ok hash =>
      dsimp only
      cases h2 : r.routing.GetValue (ipns ++ hash) with
      | error e => left; simp [routingCalls]
      | ok val =>
        dsimp only
        cases h3 : lib.Unmarshal val with
        | error e => left; simp [routingCalls]
        | ok entry =>
          dsimp only
          cases h4 : lib.GetPublicKey r.routing hash with
          | error e => left; simp [routingCalls]
          | ok pubkey =>
            dsimp only
            by_cases hver : (pubkey.Verify (lib.ipnsEntryDataForSig entry) entry.Signature).2 ≠ none
                ∨ (pubkey.Verify (lib.ipnsEntryDataForSig entry) entry.Signature).1 = false
            · left
              rw [if_pos hver]
              simp [routingCalls]
            · rw [if_neg hver]
              simp only [ne_eq, not_or, Decidable.not_not, Bool.not_eq_false] at hver
              cases h5 : lib.Cast entry.Value with
              | error e =>
                dsimp only
                cases h6 : lib.ParsePath entry.Value with
                | error e => left; simp [routingCalls]
                | ok p =>
                  right
                  refine ⟨trivial, rfl, rfl, ⟨_, rfl⟩,
                    ⟨lib.ipnsEntryDataForSig entry, entry.Signature, ?_⟩, ?_⟩
                  · dsimp only
                    simp only [hver.1, hver.2]
                    simp
                  · simp [routingCalls]
              | ok valh =>
                right
                refine ⟨trivial, rfl, rfl, ⟨_, rfl⟩,
                  ⟨lib.ipnsEntryDataForSig entry, entry.Signature, ?_⟩, ?_⟩
                · dsimp only
                  simp only [hver.1, hver.2]
                  simp
                · simp [routingCalls]

/-- The resolver after `resolveOnce` is the resolver before, unless the call fetched a
record for a name that decodes, saw `Verify` answer `(true, nil)` and returned a path
without error, in which case it is the resolver after `cacheSet` of that path. -/
theorem resolveOnce_state (lib : Collaborators) (r : routingResolver) (now₁ now₂ : Time)
    (name : Bytes) :
    (resolveOnce lib r now₁ now₂ name).r = r ∨
    ((resolveOnce lib r now₁ now₂ name).err = none ∧
      (resolveOnce lib r now₁ now₂ name).r
        = cacheSet r now₂ name (resolveOnce lib r now₁ now₂ name).path ∧
      (∃ hash, lib.FromB58String name = .ok hash) ∧
      (cacheGet r now₁ name).1.2 = false ∧
      ∃ data sig, Event.Verify data sig true none ∈ (resolveOnce lib r now₁ now₂ name).trace) := by
  rcases resolveOnce_cases lib r now₁ now₂ name with ⟨p, _, h⟩ | ⟨_, _, h, _⟩ | ⟨h1, h2, h3, h4, h5, _⟩
  · left
    rw [h]
  · left
    exact h
  · right
    exact ⟨h2, h3, h4, h1, h5⟩

/-- When `resolveOnce` returns an error the resolver is what it was. -/
theorem resolveOnce_err_state (lib : Collaborators) (r : routingResolver) (now₁ now₂ : Time)
    (name : Bytes) (h : (resolveOnce lib r now₁ now₂ name).err ≠ none) :
    (resolveOnce lib r now₁ now₂ name).r = r := by
  rcases resolveOnce_state lib r now₁ now₂ name with h1 | h2
  · exact h1
  · exact absurd h2.1 h

/-- C2. The cache never stores unverified data: whenever a call of `resolveOnce(name)`
leaves a cache map different from the one it found, `pubkey.Verify` returned
`(true, nil)` in that call, the call returned a path `p` without error, and the map
differs only in that the entry of `name` is now `{val: p, recvd: now}`; and whenever
`resolveOnce` returns an error the resolver, cache included, is unchanged. -/
theorem cache_never_stores_unverified (lib : Collaborators) (r : routingResolver)
    (now₁ now₂ : Time) (name : Bytes) :
    ((resolveOnce lib r now₁ now₂ name).r.cache ≠ r.cache →
      (∃ data sig, Event.Verify data sig true none ∈ (resolveOnce lib r now₁ now₂ name).trace) ∧
      (resolveOnce lib r now₁ now₂ name).err = none ∧
      (resolveOnce lib r now₁ now₂ name).r.cache =
        fun n => if n = name
          then some { val := (resolveOnce lib r now₁ now₂ name).path, recvd := now₂ }
          else r.cache n) ∧
    ((resolveOnce lib r now₁ now₂ name).err ≠ none →
      (resolveOnce lib r now₁ now₂ name).r = r) := by
  refine ⟨?_, resolveOnce_err_state lib r now₁ now₂ name⟩
  intro hne
  rcases resolveOnce_state lib r now₁ now₂ name with h | ⟨herr, hr, _, _, hver⟩
  · rw [h] at hne
    exact absurd rfl hne
  · refine ⟨hver, herr, ?_⟩
    rw [hr]
    rfl

/-- Witness of C2: a first resolution of a validly signed record changes the cache. -/
theorem cache_never_stores_unverified_witness :
    (resolveOnce demoLib
      { routing := demoRouting [(ipns ++ ascii "A", 65 :: ascii "/ipfs/Qabc")],
        cache := fun _ => none, cachelife := 10 } 0 1 (ascii "QA")).err = none :=
  ((cache_never_stores_unverified demoLib
      { routing := demoRouting [(ipns ++ ascii "A", 65 :: ascii "/ipfs/Qabc")],
        cache := fun _ => none, cachelife := 10 } 0 1 (ascii "QA")).1
    (fun h => absurd (congrFun h (ascii "QA")) (by decide))).2.1

/-- Every name with an entry in the cache of a reachable resolver decodes. -/
theorem Reachable.cache_decodes {decode : Bytes → Except Error Bytes} {r : routingResolver}
    (h : Reachable decode r) : ∀ n e, r.cache n = some e → ∃ hash, decode n = .ok hash := by
  induction h with
  | new rt cachelife r hnew =>
    intro n e he
    simp only [NewRoutingResolver] at hnew
    cases hnew
    cases he
  | call lib r now₁ now₂ name hlib _ ih =>
    intro n e he
    rcases resolveOnce_state lib r now₁ now₂ name with h | ⟨_, hr, ⟨hash, hhash⟩, _, _⟩
    · rw [h] at he
      exact ih n e he
    · rw [hr] at he
      simp only [cacheSet] at he
      by_cases hn : n = name
      · subst hn
        rw [← hlib]
        exact ⟨hash, hhash⟩
      · rw [if_neg hn] at he
        exact ih n e he
  | network r rt _ ih =>
    intro n e he
    exact ih n e he

/-- C7. Malformed input fails fast: in every resolver reachable from `NewRoutingResolver`
by `resolveOnce` calls, for every name on which `mh.FromB58String` returns an error,
`resolveOnce(name)` returns that error with an empty path, calls neither the routing
`GetValue` nor the key lookup (it only logs two lines), and leaves the resolver, cache
included, unchanged. -/
theorem malformed_name_fails_fast (lib : Collaborators) (r : routingResolver)
    (now₁ now₂ : Time) (name : Bytes) (err : Error)
    (hreach : Reachable lib.FromB58String r)
    (hbad : lib.FromB58String name = .error err) :
    resolveOnce lib r now₁ now₂ name =
      { path := [], err := some err, r := r,
        trace := [Event.debugf "RoutingResolve: '%s'" [name],
                  Event.warning "RoutingResolve: bad input hash: [%s]\n" [name]] } := by
  have hnone : r.cache name = none := by
    cases hc : r.cache name with
    | none => rfl
    | some e =>
      obtain ⟨hash, hhash⟩ := hreach.cache_decodes name e hc
      rw [hbad] at hhash
      cases hhash
  have hget : cacheGet r now₁ name = (([], false), r) := by
    unfold cacheGet
    rw [hnone]
  unfold resolveOnce
  simp only [hget, hbad]
  rfl

/-- Witness of C7: after one successful resolution, a name that does not decode. -/
theorem malformed_name_fails_fast_witness :
    resolveOnce demoLib
      (resolveOnce demoLib
        { routing := demoRouting [(ipns ++ ascii "A", 65 :: ascii "/ipfs/Qabc")],
          cache := fun _ => none, cachelife := 10 } 0 1 (ascii "QA")).r 2 3 (ascii "xyz") =
      { path := [], err := some (.collaborator "invalid base58 multihash"),
        r := (resolveOnce demoLib
          { routing := demoRouting [(ipns ++ ascii "A", 65 :: ascii "/ipfs/Qabc")],
            cache := fun _ => none, cachelife := 10 } 0 1 (ascii "QA")).r,
        trace := [Event.debugf "RoutingResolve: '%s'" [ascii "xyz"],
                  Event.warning "RoutingResolve: bad input hash: [%s]\n" [ascii "xyz"]] } :=
  malformed_name_fails_fast demoLib _ 2 3 (ascii "xyz") (.collaborator "invalid base58 multihash")
    (Reachable.call demoLib _ 0 1 (ascii "QA") rfl
      (Reachable.new (demoRouting [(ipns ++ ascii "A", 65 :: ascii "/ipfs/Qabc")]) 10 _ rfl))
    (by decide)

/-- C8. Legacy round trip: on a cache miss where the name decodes and the routing fetch,
the record decoding, the key lookup and the signature verification succeed, if `mh.Cast`
accepts the value field as a multihash `h` then `resolveOnce` returns
`path.FromKey(key.Key(h))` without error and stores it in the cache under `name` with the
time of the store; nothing is asked of `path.ParsePath`, so this holds whether or not
the same bytes parse as a path. -/
theorem legacy_round_trip (lib : Collaborators) (r : routingResolver) (now₁ now₂ : Time)
    (name hash val : Bytes) (entry : IpnsEntry) (pubkey : PubKey) (h : Bytes)
    (hmiss : (cacheGet r now₁ name).1.2 = false)
    (hname : lib.FromB58String name = .ok hash)
    (hget : r.routing.GetValue (ipns ++ hash) = .ok val)
    (hdec : lib.Unmarshal val = .ok entry)
    (hkey : lib.GetPublicKey r.routing hash = .ok pubkey)
    (hsig : pubkey.Verify (lib.ipnsEntryDataForSig entry) entry.Signature = (true, none))
    (hcast : lib.Cast entry.Value = .ok h) :
    (resolveOnce lib r now₁ now₂ name).path = lib.FromKey h ∧
    (resolveOnce lib r now₁ now₂ name).err = none ∧
    (resolveOnce lib r now₁ now₂ name).r = cacheSet r now₂ name (lib.FromKey h) ∧
    (resolveOnce lib r now₁ now₂ name).r.cache name
      = some { val := lib.FromKey h, recvd := now₂ } := by
  have hc := cacheGet_of_miss r now₁ name hmiss
  unfold resolveOnce
  simp only [hc, hname, hget, hdec, hkey, hsig, hcast]
  simp [cacheSet]

/-- Witness of C8: with a path parser that accepts every value, a signed record whose
value starts with the multihash code still resolves to the path built from the hash. -/
theorem legacy_round_trip_witness :
    (resolveOnce { demoLib with ParsePath := fun v => .ok v }
      { routing := demoRouting [(ipns ++ ascii "A", [65, 18, 32, 7])],
        cache := fun _ => none, cachelife := 10 } 0 1 (ascii "QA")).path
      = ascii "/ipfs/" ++ [18, 32, 7] :=
  (legacy_round_trip { demoLib with ParsePath := fun v => .ok v }
    { routing := demoRouting [(ipns ++ ascii "A", [65, 18, 32, 7])],
      cache := fun _ => none, cachelife := 10 } 0 1 (ascii "QA") (ascii "A") [65, 18, 32, 7]
    { Value := [18, 32, 7], Signature := [65] } (demoKey (ascii "A")) [18, 32, 7]
    (by decide) (by decide) (by decide) (by decide) rfl (by decide) (by decide)).1

/-- On a cache miss where every step up to the signature verification succeeds and the
value is not a multihash, a value that parses is returned and stored. -/
theorem resolveOnce_of_parse (lib : Collaborators) (r : routingResolver)
    (now₁ now₂ : Time) (name hash val : Bytes) (entry : IpnsEntry) (pubkey : PubKey)
    (cerr : Error) (p : Path)
    (hmiss : (cacheGet r now₁ name).1.2 = false)
    (hname : lib.FromB58String name = .ok hash)
    (hget : r.routing.GetValue (ipns ++ hash) = .ok val)
    (hdec : lib.Unmarshal val = .ok entry)
    (hkey : lib.GetPublicKey r.routing hash = .ok pubkey)
    (hsig : pubkey.Verify (lib.ipnsEntryDataForSig entry) entry.Signature = (true, none))
    (hcast : lib.Cast entry.Value = .error cerr)
    (hparse : lib.ParsePath entry.Value = .ok p) :
    (resolveOnce lib r now₁ now₂ name).path = p ∧
    (resolveOnce lib r now₁ now₂ name).err = none ∧
    (resolveOnce lib r now₁ now₂ name).r = cacheSet r now₂ name p := by
  have hc := cacheGet_of_miss r now₁ name hmiss
  unfold resolveOnce
  simp only [hc, hname, hget, hdec, hkey, hsig, hcast, hparse]
  simp

/-- C9. Current-format resolution: on a cache miss where the name decodes and the routing
fetch, the record decoding, the key lookup and the signature verification succeed, if
`mh.Cast` rejects the value field then `resolveOnce` returns the outcome of
`path.ParsePath(string(value))`: the parse error with an empty path and an untouched
resolver when parsing fails, and the parsed path `p` without error when it succeeds,
after which the cache holds `{val: p, recvd: now}` under `name`. -/
theorem current_format_resolution (lib : Collaborators) (r : routingResolver)
    (now₁ now₂ : Time) (name hash val : Bytes) (entry : IpnsEntry) (pubkey : PubKey)
    (cerr : Error)
    (hmiss : (cacheGet r now₁ name).1.2 = false)
    (hname : lib.FromB58String name = .ok hash)
    (hget : r.routing.GetValue (ipns ++ hash) = .ok val)
    (hdec : lib.Unmarshal val = .ok entry)
    (hkey : lib.GetPublicKey r.routing hash = .ok pubkey)
    (hsig : pubkey.Verify (lib.ipnsEntryDataForSig entry) entry.Signature = (true, none))
    (hcast : lib.Cast entry.Value = .error cerr) :
    (∀ perr, lib.ParsePath entry.Value = .error perr →
      (resolveOnce lib r now₁ now₂ name).path = [] ∧
      (resolveOnce lib r now₁ now₂ name).err = some perr ∧
      (resolveOnce lib r now₁ now₂ name).r = r) ∧
    (∀ p, lib.ParsePath entry.Value = .ok p →
      (resolveOnce lib r now₁ now₂ name).path = p ∧
      (resolveOnce lib r now₁ now₂ name).err = none ∧
      (resolveOnce lib r now₁ now₂ name).r = cacheSet r now₂ name p ∧
      (resolveOnce lib r now₁ now₂ name).r.cache name = some { val := p, recvd := now₂ }) := by
  have hc := cacheGet_of_miss r now₁ name hmiss
  constructor
  · intro perr hparse
    unfold resolveOnce
    simp only [hc, hname, hget, hdec, hkey, hsig, hcast, hparse]
    simp
  · intro p hparse
    have h := resolveOnce_of_parse lib r now₁ now₂ name hash val entry pubkey cerr p
      hmiss hname hget hdec hkey hsig hcast hparse
    refine ⟨h.1, h.2.1, h.2.2, ?_⟩
    rw [h.2.2]
    simp [cacheSet]

/-- Witness of C9: a validly signed record with value `"/ipfs/Qabc"` resolves to the path
`"/ipfs/Qabc"`, which the cache then holds. -/
theorem current_format_resolution_witness :
    (resolveOnce demoLib
      { routing := demoRouting [(ipns ++ ascii "A", 65 :: ascii "/ipfs/Qabc")],
        cache := fun _ => none, cachelife := 10 } 0 1 (ascii "QA")).path = ascii "/ipfs/Qabc" ∧
    (resolveOnce demoLib
      { routing := demoRouting [(ipns ++ ascii "A", 65 :: ascii "/ipfs/Qabc")],
        cache := fun _ => none, cachelife := 10 } 0 1 (ascii "QA")).r.cache (ascii "QA")
      = some { val := ascii "/ipfs/Qabc", recvd := 1 } :=
  have h := (current_format_resolution demoLib
    { routing := demoRouting [(ipns ++ ascii "A", 65 :: ascii "/ipfs/Qabc")],
      cache := fun _ => none, cachelife := 10 } 0 1 (ascii "QA") (ascii "A")
    (65 :: ascii "/ipfs/Qabc") { Value := ascii "/ipfs/Qabc", Signature := [65] }
    (demoKey (ascii "A")) (.collaborator "not a multihash")
    (by decide) (by decide) (by decide) (by decide) rfl (by decide) (by decide)).2
    (ascii "/ipfs/Qabc") (by decide)
  ⟨h.1, h.2.2.2⟩

theorem resolveOnce_routingCalls (lib : Collaborators) (r : routingResolver) (now₁ now₂ : Time)
    (name : Bytes) : routingCalls (resolveOnce lib r now₁ now₂ name).trace ≤ 1 := by
  rcases resolveOnce_cases lib r now₁ now₂ name with ⟨p, _, h⟩ | ⟨_, _, _, h⟩ | ⟨_, _, _, _, _, h⟩
  · rw [h]
    simp [routingCalls]
  · exact h
  · exact h

/-- After a call of `resolveOnce` that returned no error, the cache holds the returned
path under the name; the entry was stored by this call when it missed the cache, and is
the entry that was there when it hit. -/
theorem resolveOnce_ok_cached (lib : Collaborators) (r : routingResolver) (now₁ now₂ : Time)
    (name : Bytes) (hok : (resolveOnce lib r now₁ now₂ name).err = none) :
    ∃ e, (resolveOnce lib r now₁ now₂ name).r.cache name = some e ∧
      e.val = (resolveOnce lib r now₁ now₂ name).path ∧
      ((cacheGet r now₁ name).1.2 = false → e.recvd = now₂) ∧
      ((cacheGet r now₁ name).1.2 = true → r.cache name = some e) := by
  rcases resolveOnce_cases lib r now₁ now₂ name with
    ⟨p, hv, h⟩ | ⟨_, herr, _, _⟩ | ⟨hmiss, _, hr, _, _, _⟩
  · have hc := cacheGet_eq r now₁ name
    rw [hv] at hc
    obtain ⟨e, he, _, hval⟩ := (cacheGet_hit_iff r now₁ name p).mp hc
    rw [h]
    exact ⟨e, he, hval, by simp [hv], fun _ => he⟩
  · exact absurd hok herr
  · refine ⟨{ val := (resolveOnce lib r now₁ now₂ name).path, recvd := now₂ }, ?_, rfl,
      fun _ => rfl, by simp [hmiss]⟩
    rw [hr]
    simp [cacheSet]

/-- C6 as stated fails: the first call succeeds at time 9 through a cache entry received
at time 0, under a lifetime of 10; a second call at time 12, which is within the
lifetime of the first call, finds the entry expired, fetches from routing, looks the
key up, verifies, and returns another path. -/
theorem idempotence_counterexample :
    (resolveOnce demoLib demoStale 9 9 (ascii "QA")).err = none ∧
    (resolveOnce demoLib demoStale 9 9 (ascii "QA")).path = ascii "/ipfs/Qold" ∧
    (9 : Time) ≤ 12 ∧ (12 : Time) - 9 < demoStale.cachelife ∧
    (resolveOnce demoLib (resolveOnce demoLib demoStale 9 9 (ascii "QA")).r 12 12
      (ascii "QA")).path = ascii "/ipfs/Qnew" ∧
    routingCalls (resolveOnce demoLib (resolveOnce demoLib demoStale 9 9 (ascii "QA")).r 12 12
      (ascii "QA")).trace = 1 ∧
    Event.GetPublicKey (ascii "A") ∈
      (resolveOnce demoLib (resolveOnce demoLib demoStale 9 9 (ascii "QA")).r 12 12
        (ascii "QA")).trace := by
  decide

/-- C6, amended. Idempotence through the cache: if `resolveOnce(name)` succeeds with path
`p`, the cache then holds an entry for `name` with value `p`, received at a time `t0`
which is the time of the call's own `cacheSet` when the call missed the cache (and the
receipt time of the entry it hit otherwise); a second `resolveOnce(name)` at any time
`t1 >= t0` with `t1 - t0 < cachelife`, on a resolver with that cache and lifetime and
with any collaborators, returns exactly `p` without error, leaves the resolver as it is
and makes no routing `GetValue` call, no key lookup and no verification, so that the two
calls together make at most one routing `GetValue` call. -/
theorem idempotence_through_cache (lib : Collaborators) (r : routingResolver)
    (now₁ now₂ : Time) (name : Bytes)
    (hok : (resolveOnce lib r now₁ now₂ name).err = none) :
    ∃ e, (resolveOnce lib r now₁ now₂ name).r.cache name = some e ∧
      e.val = (resolveOnce lib r now₁ now₂ name).path ∧
      ((cacheGet r now₁ name).1.2 = false → e.recvd = now₂) ∧
      ((cacheGet r now₁ name).1.2 = true → r.cache name = some e) ∧
      ∀ (lib' : Collaborators) (r' : routingResolver) (t1 t2 : Time),
        r'.cache = (resolveOnce lib r now₁ now₂ name).r.cache →
        r'.cachelife = r.cachelife →
        e.recvd ≤ t1 → t1 - e.recvd < r.cachelife →
        resolveOnce lib' r' t1 t2 name =
          { path := (resolveOnce lib r now₁ now₂ name).path, err := none, r := r',
            trace := [Event.debugf "RoutingResolve: '%s'" [name]] } ∧
        (∀ ev ∈ (resolveOnce lib' r' t1 t2 name).trace, ev.isCall = false) ∧
        routingCalls ((resolveOnce lib r now₁ now₂ name).trace
          ++ (resolveOnce lib' r' t1 t2 name).trace) ≤ 1 := by
  obtain ⟨e, he, hval, hmiss, hhit⟩ := resolveOnce_ok_cached lib r now₁ now₂ name hok
  refine ⟨e, he, hval, hmiss, hhit, ?_⟩
  intro lib' r' t1 t2 hcache hlife hle hlt
  have hsub := (Time.Sub_of_nonneg t1 e.recvd hle).2
  have hget : (cacheGet r' t1 name).1 = ((resolveOnce lib r now₁ now₂ name).path, true) := by
    unfold cacheGet
    rw [hcache, he]
    simp only [hlife]
    rw [if_pos (by linarith), hval]
  have hsecond := resolveOnce_hit lib' r' t1 t2 name _ hget
  refine ⟨hsecond, ?_, ?_⟩
  · rw [hsecond]
    intro ev hev
    simp only [List.mem_singleton] at hev
    rw [hev]
    rfl
  · rw [hsecond]
    have h1 := resolveOnce_routingCalls lib r now₁ now₂ name
    unfold routingCalls at h1 ⊢
    rw [List.filter_append, List.length_append]
    simpa using h1

/-- Witness of C6, amended: a record fetched and stored at time 1 under a lifetime of 10
is returned from the cache at time 10, whatever the collaborators then are. -/
theorem idempotence_through_cache_witness :
    (resolveOnce { demoLib with FromB58String := fun _ => .error .depthExceeded }
      (resolveOnce demoLib
        { routing := demoRouting [(ipns ++ ascii "A", 65 :: ascii "/ipfs/Qabc")],
          cache := fun _ => none, cachelife := 10 } 0 1 (ascii "QA")).r 10 11 (ascii "QA")).path
      = ascii "/ipfs/Qabc" ∧
    (resolveOnce { demoLib with FromB58String := fun _ => .error .depthExceeded }
      (resolveOnce demoLib
        { routing := demoRouting [(ipns ++ ascii "A", 65 :: ascii "/ipfs/Qabc")],
          cache := fun _ => none, cachelife := 10 } 0 1 (ascii "QA")).r 10 11 (ascii "QA")).err
      = none :=
  match idempotence_through_cache demoLib
      { routing := demoRouting [(ipns ++ ascii "A", 65 :: ascii "/ipfs/Qabc")],
        cache := fun _ => none, cachelife := 10 } 0 1 (ascii "QA") (by decide) with
  | ⟨e, _, _, hrecvd, _, h⟩ =>
    have ht : e.recvd = 1 := hrecvd (by decide)
    have h2 := (h { demoLib with FromB58String := fun _ => .error .depthExceeded }
      (resolveOnce demoLib
        { routing := demoRouting [(ipns ++ ascii "A", 65 :: ascii "/ipfs/Qabc")],
          cache := fun _ => none, cachelife := 10 } 0 1 (ascii "QA")).r 10 11 rfl rfl
      (by rw [ht]; decide) (by rw [ht]; decide)).1
    ⟨by rw [h2]; decide, by rw [h2]⟩

/-! ## The chain resolver -/

theorem resolveLoop_of_err {σ : Type} (once : σ → Bytes → (Path × Option Error) × σ)
    (pfx : Bytes) (rem : Nat) (s : σ) (name : Bytes) (e : Error)
    (h : (once s name).1.2 = some e) :
    (resolveLoop once pfx (rem + 1) s name).1 = .error e := by
  rcases ho : once s name with ⟨⟨p, oe⟩, s'⟩
  rw [ho] at h
  simp only at h
  subst h
  simp only [resolveLoop, ho]

theorem resolveLoop_of_terminal {σ : Type} (once : σ → Bytes → (Path × Option Error) × σ)
    (pfx : Bytes) (rem : Nat) (s : σ) (name : Bytes) (p : Path)
    (h : (once s name).1 = (p, none)) (hp : HasPrefix p pfx = false) :
    (resolveLoop once pfx (rem + 1) s name).1 = .ok p := by
  rcases ho : once s name with ⟨⟨q, oe⟩, s'⟩
  rw [ho] at h
  simp only [Prod.mk.injEq] at h
  obtain ⟨hq, hoe⟩ := h
  subst hq hoe
  simp only [resolveLoop, ho, hp]
  simp

theorem resolveLoop_of_indirect {σ : Type} (once : σ → Bytes → (Path × Option Error) × σ)
    (pfx : Bytes) (rem : Nat) (s : σ) (name : Bytes)
    (h : (once s name).1.2 = none) (hp : HasPrefix (once s name).1.1 pfx = true) :
    resolveLoop once pfx (rem + 1) s name =
      resolveLoop once pfx rem (once s name).2 (TrimPrefix (once s name).1.1 pfx) := by
  rcases ho : once s name with ⟨⟨q, oe⟩, s'⟩
  rw [ho] at h hp
  simp only at h hp
  subst h
  simp only [resolveLoop, ho, hp]
  simp

/-- The method `Hash` of the looked-up key has no bearing on what `resolveOnce` returns:
with any other answer of `Hash` the path, the error and the resolver are the same. -/
theorem resolveOnce_withKeyHash (lib : Collaborators) (hk : Bytes × Option Error)
    (r : routingResolver) (now₁ now₂ : Time) (name : Bytes) :
    (resolveOnce (withKeyHash lib hk) r now₁ now₂ name).path
      = (resolveOnce lib r now₁ now₂ name).path ∧
    (resolveOnce (withKeyHash lib hk) r now₁ now₂ name).err
      = (resolveOnce lib r now₁ now₂ name).err ∧
    (resolveOnce (withKeyHash lib hk) r now₁ now₂ name).r
      = (resolveOnce lib r now₁ now₂ name).r := by
  have hc := cacheGet_eq r now₁ name
  rcases hv : (cacheGet r now₁ name).1 with ⟨cached, found⟩
  rw [hv] at hc
  cases found with
  | true =>
    rw [resolveOnce_hit (withKeyHash lib hk) r now₁ now₂ name cached hv,
      resolveOnce_hit lib r now₁ now₂ name cached hv]
    exact ⟨rfl, rfl, rfl⟩
  | false =>
    unfold resolveOnce
    simp only [hc, withKeyHash]
    cases h1 : lib.FromB58String name with
    | error e => exact ⟨rfl, rfl, rfl⟩
    | ok hash =>
      dsimp only
      cases h2 : r.routing.GetValue (ipns ++ hash) with
      | error e => exact ⟨rfl, rfl, rfl⟩
      | ok val =>
        dsimp only
        cases h3 : lib.Unmarshal val with
        | error e => exact ⟨rfl, rfl, rfl⟩
        | ok entry =>
          dsimp only
          cases h4 : lib.GetPublicKey r.routing hash with
          | error e => exact ⟨rfl, rfl, rfl⟩
          | ok pubkey =>
            dsimp only
            by_cases hver : (pubkey.Verify (lib.ipnsEntryDataForSig entry) entry.Signature).2 ≠ none
                ∨ (pubkey.Verify (lib.ipnsEntryDataForSig entry) entry.Signature).1 = false
            · rw [if_pos hver, if_pos hver]
              exact ⟨rfl, rfl, rfl⟩
            · rw [if_neg hver, if_neg hver]
              cases h5 : lib.Cast entry.Value with
              | error e =>
                dsimp only
                cases h6 : lib.ParsePath entry.Value with
                | error e => exact ⟨rfl, rfl, rfl⟩
                | ok p => exact ⟨rfl, rfl, rfl⟩
              | ok valh => exact ⟨rfl, rfl, rfl⟩

/-- C1 as stated fails, on both counts. First, routing returns for the name `QA` a record
that the key of `QA` rejects, yet in a resolver whose cache holds a live entry for `QA`
both `resolveOnce` and `ResolveN` return the cached path without error. Second, on an
empty cache, the same record is accepted by a key whose hash is `Z`, not the hash `A`
of the name; when the key lookup answers that key, `resolveOnce` and `ResolveN` return
the value of the record without error and `resolveOnce` stores it in the cache. -/
theorem validation_soundness_counterexample :
    (demoLib.FromB58String (ascii "QA") = .ok (ascii "A") ∧
      demoForged.routing.GetValue (ipns ++ ascii "A") = .ok (66 :: ascii "/ipfs/Qevil") ∧
      demoLib.Unmarshal (66 :: ascii "/ipfs/Qevil")
        = .ok { Value := ascii "/ipfs/Qevil", Signature := [66] } ∧
      (∃ pubkey, demoLib.GetPublicKey demoForged.routing (ascii "A") = .ok pubkey ∧
        pubkey.Verify
          (demoLib.ipnsEntryDataForSig { Value := ascii "/ipfs/Qevil", Signature := [66] })
          [66] = (false, none)) ∧
      (resolveOnce demoLib demoForged 5 6 (ascii "QA")).err = none ∧
      (resolveOnce demoLib demoForged 5 6 (ascii "QA")).path = ascii "/ipfs/Qabc" ∧
      (ResolveN demoLib (fun _ => (5, 6)) demoForged (ascii "QA") 32).1
        = .ok (ascii "/ipfs/Qabc")) ∧
    (demoForeignLib.FromB58String (ascii "QA") = .ok (ascii "A") ∧
      (cacheGet { demoForged with cache := fun _ => none } 5 (ascii "QA")).1.2 = false ∧
      demoForged.routing.GetValue (ipns ++ ascii "A") = .ok (66 :: ascii "/ipfs/Qevil") ∧
      demoForeignLib.Unmarshal (66 :: ascii "/ipfs/Qevil")
        = .ok { Value := ascii "/ipfs/Qevil", Signature := [66] } ∧
      (∃ pubkey, demoForeignLib.GetPublicKey demoForged.routing (ascii "A") = .ok pubkey ∧
        pubkey.Hash.1 ≠ ascii "A" ∧
        pubkey.Verify
          (demoForeignLib.ipnsEntryDataForSig
            { Value := ascii "/ipfs/Qevil", Signature := [66] })
          [66] = (true, none)) ∧
      (resolveOnce demoForeignLib { demoForged with cache := fun _ => none } 5 6
        (ascii "QA")).err = none ∧
      (resolveOnce demoForeignLib { demoForged with cache := fun _ => none } 5 6
        (ascii "QA")).path = ascii "/ipfs/Qevil" ∧
      (resolveOnce demoForeignLib { demoForged with cache := fun _ => none } 5 6
        (ascii "QA")).r.cache (ascii "QA") = some { val := ascii "/ipfs/Qevil", recvd := 6 } ∧
      (ResolveN demoForeignLib (fun _ => (5, 6)) { demoForged with cache := fun _ => none }
        (ascii "QA") 32).1 = .ok (ascii "/ipfs/Qevil")) :=
  ⟨⟨by decide, by decide, by decide, ⟨demoKey (ascii "A"), rfl, by decide⟩,
      by decide, by decide, by decide⟩,
    ⟨by decide, by decide, by decide, by decide,
      ⟨demoForeignKey, rfl, by decide, by decide⟩,
      by decide, by decide, by decide, by decide⟩⟩

/-- C1, amended. Validation soundness: for every resolver in which the cache lookup of
the name misses (no entry, or an expired one), every name that decodes and every record
returned by routing for that name, with `pubkey` the key the key lookup returns: if
`pubkey.Verify` on the record returns false or an error, then `resolveOnce` fails with
the invalid-signature error and an empty path, whatever the value field holds and
whatever `pubkey.Hash()` returns, and leaves the resolver as it was; and so do
`ResolveN` at every depth of at least 1 and `Resolve` for a positive default depth.
The hash of the looked-up key is logged and not compared with the name: in every state
and for every name, with any other answer of `Hash` the path, the error and the
resolver returned by `resolveOnce` are the same. -/
theorem validation_soundness (lib : Collaborators) (r : routingResolver) (now₁ now₂ : Time)
    (name hash val : Bytes) (entry : IpnsEntry) (pubkey : PubKey)
    (hmiss : (cacheGet r now₁ name).1.2 = false)
    (hname : lib.FromB58String name = .ok hash)
    (hget : r.routing.GetValue (ipns ++ hash) = .ok val)
    (hdec : lib.Unmarshal val = .ok entry)
    (hkey : lib.GetPublicKey r.routing hash = .ok pubkey)
    (hsig : (pubkey.Verify (lib.ipnsEntryDataForSig entry) entry.Signature).2 ≠ none ∨
      (pubkey.Verify (lib.ipnsEntryDataForSig entry) entry.Signature).1 = false) :
    (resolveOnce lib r now₁ now₂ name).err = some (.notSigned pubkey.format) ∧
    (resolveOnce lib r now₁ now₂ name).path = [] ∧
    (resolveOnce lib r now₁ now₂ name).r = r ∧
    (∀ (clock : Nat → Time × Time) (depth : Int), clock 0 = (now₁, now₂) → 0 < depth →
      (ResolveN lib clock r name depth).1 = .error (.notSigned pubkey.format) ∧
      (Resolve depth lib clock r name).1 = .error (.notSigned pubkey.format)) ∧
    (∀ (hk : Bytes × Option Error),
      (withKeyHash lib hk).GetPublicKey r.routing hash = .ok { pubkey with Hash := hk } ∧
      (resolveOnce (withKeyHash lib hk) r now₁ now₂ name).err
        = some (.notSigned pubkey.format) ∧
      (resolveOnce (withKeyHash lib hk) r now₁ now₂ name).path = [] ∧
      (resolveOnce (withKeyHash lib hk) r now₁ now₂ name).r = r) ∧
    (∀ (hk : Bytes × Option Error) (r' : routingResolver) (t₁ t₂ : Time) (name' : Bytes),
      (resolveOnce (withKeyHash lib hk) r' t₁ t₂ name').path
        = (resolveOnce lib r' t₁ t₂ name').path ∧
      (resolveOnce (withKeyHash lib hk) r' t₁ t₂ name').err
        = (resolveOnce lib r' t₁ t₂ name').err ∧
      (resolveOnce (withKeyHash lib hk) r' t₁ t₂ name').r
        = (resolveOnce lib r' t₁ t₂ name').r) := by
  have hc := cacheGet_of_miss r now₁ name hmiss
  have hone : resolveOnce lib r now₁ now₂ name =
      { path := [], err := some (.notSigned pubkey.format), r := r,
        trace := (resolveOnce lib r now₁ now₂ name).trace } := by
    unfold resolveOnce
    simp only [hc, hname, hget, hdec, hkey]
    rw [if_pos hsig]
  have herr : (resolveOnce lib r now₁ now₂ name).err = some (.notSigned pubkey.format) := by
    rw [hone]
  have hpath : (resolveOnce lib r now₁ now₂ name).path = [] := by rw [hone]
  have hr : (resolveOnce lib r now₁ now₂ name).r = r := by rw [hone]
  refine ⟨herr, hpath, hr, ?_, ?_, ?_⟩
  · intro clock depth hclock hdepth
    have hN : (ResolveN lib clock r name depth).1 = .error (.notSigned pubkey.format) := by
      obtain ⟨k, hk⟩ : ∃ k, depth.toNat = k + 1 :=
        ⟨depth.toNat - 1, by have := Int.toNat_of_nonneg (le_of_lt hdepth); omega⟩
      unfold ResolveN resolve
      rw [hk]
      apply resolveLoop_of_err
      simp only [hop, hclock]
      exact herr
    exact ⟨hN, hN⟩
  · intro hk
    have h := resolveOnce_withKeyHash lib hk r now₁ now₂ name
    refine ⟨?_, h.2.1.trans herr, h.1.trans hpath, h.2.2.trans hr⟩
    simp only [withKeyHash, hkey]
  · intro hk r' t₁ t₂ name'
    exact resolveOnce_withKeyHash lib hk r' t₁ t₂ name'

/-- Witness of C1, amended: with an empty cache, the record of `QA` that the key of `QA`
rejects makes `resolveOnce` fail with the invalid-signature error. -/
theorem validation_soundness_witness :
    (resolveOnce demoLib { demoForged with cache := fun _ => none } 5 6 (ascii "QA")).err
      = some (.notSigned "demo key") :=
  (validation_soundness demoLib { demoForged with cache := fun _ => none } 5 6 (ascii "QA")
    (ascii "A") (66 :: ascii "/ipfs/Qevil") { Value := ascii "/ipfs/Qevil", Signature := [66] }
    (demoKey (ascii "A")) (by decide) (by decide) (by decide) (by decide) rfl
    (Or.inr (by decide))).1

theorem HasPrefix_append (pfx x : Bytes) : HasPrefix (pfx ++ x) pfx = true := by
  simp [HasPrefix]

theorem TrimPrefix_append (pfx x : Bytes) : TrimPrefix (pfx ++ x) pfx = x := by
  simp [TrimPrefix, HasPrefix_append]

theorem resolveLoop_of_chain {σ : Type} (once : σ → Bytes → (Path × Option Error) × σ)
    (pfx : Bytes) (p : Path) :
    ∀ (N : Nat) (s : σ) (name : Bytes), Chain once pfx N s name p → ∀ rem : Nat,
      (N ≤ rem → (resolveLoop once pfx rem s name).1 = .ok p) ∧
      (rem < N → (resolveLoop once pfx rem s name).1 = .error .depthExceeded) := by
  intro N
  induction N with
  | zero =>
    intro s name h
    exact absurd h (by simp [Chain])
  | succ n ih =>
    intro s name h rem
    cases rem with
    | zero =>
      exact ⟨fun hle => absurd hle (by omega), fun _ => rfl⟩
    | succ k =>
      cases n with
      | zero =>
        simp only [Chain] at h
        refine ⟨fun _ => resolveLoop_of_terminal once pfx k s name p h.1 h.2,
          fun hlt => absurd hlt (by omega)⟩
      | succ m =>
        simp only [Chain] at h
        obtain ⟨herr, hpfx, hrest⟩ := h
        rw [resolveLoop_of_indirect once pfx k s name herr hpfx]
        have := ih _ _ hrest k
        exact ⟨fun hle => this.1 (by omega), fun hlt => this.2 (by omega)⟩

theorem hopState_shift {σ : Type} (once : σ → Bytes → (Path × Option Error) × σ)
    (names : Nat → Bytes) (s : σ) (k : Nat) :
    hopState once (fun i => names (i + 1)) (once s (names 0)).2 k
      = hopState once names s (k + 1) := by
  induction k with
  | zero => rfl
  | succ k ih =>
    show (once (hopState once (fun i => names (i + 1)) (once s (names 0)).2 k) (names (k + 1))).2
      = (once (hopState once names s (k + 1)) (names (k + 1))).2
    rw [ih]

theorem resolveLoop_of_endless {σ : Type} (once : σ → Bytes → (Path × Option Error) × σ)
    (pfx : Bytes) :
    ∀ (rem : Nat) (names : Nat → Bytes) (s : σ), Endless once pfx names s →
      (resolveLoop once pfx rem s (names 0)).1 = .error .depthExceeded := by
  intro rem
  induction rem with
  | zero =>
    intro names s _
    rfl
  | succ k ih =>
    intro names s h
    have h0 : (once s (names 0)).1 = (pfx ++ names 1, none) := h 0
    have herr : (once s (names 0)).1.2 = none := by rw [h0]
    have hpath : (once s (names 0)).1.1 = pfx ++ names 1 := by rw [h0]
    rw [resolveLoop_of_indirect once pfx k s (names 0) herr
      (by rw [hpath]; exact HasPrefix_append pfx _)]
    rw [hpath, TrimPrefix_append]
    apply ih (fun i => names (i + 1)) (once s (names 0)).2
    intro i
    show (once (hopState once (fun i => names (i + 1)) (once s (names 0)).2 i) (names (i + 1))).1
      = (pfx ++ names (i + 1 + 1), none)
    rw [hopState_shift]
    exact h (i + 1)

/-- C3. Depth bound of `ResolveN`, on the loop the spec gives for `resolve`: for a chain
of `N >= 1` hops from `name` to a terminal path `p`, where the result of each hop but
the last lies in the namespace `"/ipns/"`, `ResolveN(ctx, name, depth)` returns `p` when
`depth >= N` and fails with the depth-exceeded error when `depth < N`; and for a chain
that never leaves the namespace, such as a self-referential name or a cycle,
`ResolveN` returns the depth-exceeded error for every depth. -/
theorem depth_bound (lib : Collaborators) (clock : Nat → Time × Time) (r : routingResolver)
    (name : Bytes) :
    (∀ (N : Nat) (p : Path) (depth : Int), Chain (hop lib clock) ipns N (r, 0) name p →
      1 ≤ N ∧
      ((N : Int) ≤ depth → (ResolveN lib clock r name depth).1 = .ok p) ∧
      (depth < (N : Int) → (ResolveN lib clock r name depth).1 = .error .depthExceeded)) ∧
    (∀ names : Nat → Bytes, names 0 = name → Endless (hop lib clock) ipns names (r, 0) →
      ∀ depth : Int, (ResolveN lib clock r name depth).1 = .error .depthExceeded) := by
  constructor
  · intro N p depth hchain
    have h := resolveLoop_of_chain (hop lib clock) ipns p N (r, 0) name hchain depth.toNat
    have hN : 1 ≤ N := by
      cases N with
      | zero => exact absurd hchain (by simp [Chain])
      | succ n => omega
    refine ⟨hN, ?_, ?_⟩
    · intro hle
      exact h.1 (by omega)
    · intro hlt
      exact h.2 (by omega)
  · intro names h0 hendless depth
    subst h0
    exact resolveLoop_of_endless (hop lib clock) ipns depth.toNat names (r, 0) hendless

theorem cacheGet_of_minDuration (r : routingResolver) (now : Time) (name : Bytes)
    (h : r.cachelife = minDuration) : (cacheGet r now name).1.2 = false := by
  unfold cacheGet
  cases r.cache name with
  | none => rfl
  | some e =>
    have hge : minDuration ≤ Time.Sub now e.recvd := by
      unfold Time.Sub minDuration maxDuration
      unfold Time Duration at *
      split_ifs <;> omega
    simp only [h]
    rw [if_neg (not_lt.mpr hge)]

theorem hop_frame (lib : Collaborators) (clock : Nat → Time × Time) (s : routingResolver × Nat)
    (name : Bytes) :
    (hop lib clock s name).2.1.cachelife = s.1.cachelife ∧
    (hop lib clock s name).2.1.routing = s.1.routing := by
  simp only [hop]
  rcases resolveOnce_state lib s.1 (clock s.2).1 (clock s.2).2 name with h | ⟨_, h, _⟩
  · rw [h]
    exact ⟨rfl, rfl⟩
  · rw [h]
    exact ⟨rfl, rfl⟩

/-- In the concrete world the name `QS` resolves to itself in every state met. -/
theorem demoChain_endless (clock : Nat → Time × Time) :
    Endless (hop demoLib clock) ipns (fun _ => ascii "QS") (demoChain, 0) := by
  have hinv : ∀ k, (hopState (hop demoLib clock) (fun _ => ascii "QS") (demoChain, 0) k).1.cachelife
        = minDuration ∧
      (hopState (hop demoLib clock) (fun _ => ascii "QS") (demoChain, 0) k).1.routing
        = demoChain.routing := by
    intro k
    induction k with
    | zero => exact ⟨rfl, rfl⟩
    | succ k ih =>
      have hf := hop_frame demoLib clock
        (hopState (hop demoLib clock) (fun _ => ascii "QS") (demoChain, 0) k) (ascii "QS")
      exact ⟨hf.1.trans ih.1, hf.2.trans ih.2⟩
  intro k
  obtain ⟨hlife, hrt⟩ := hinv k
  generalize hopState (hop demoLib clock) (fun _ => ascii "QS") (demoChain, 0) k = s at hlife hrt
  have h := resolveOnce_of_parse demoLib s.1 (clock s.2).1 (clock s.2).2 (ascii "QS")
    (ascii "S") (83 :: ascii "/ipns/QS") { Value := ascii "/ipns/QS", Signature := [83] }
    (demoKey (ascii "S")) (.collaborator "not a multihash") (ascii "/ipns/QS")
    (cacheGet_of_minDuration s.1 _ _ hlife) (by decide) (by rw [hrt]; decide) (by decide) rfl
    (by decide) (by decide) (by decide)
  show ((resolveOnce demoLib s.1 (clock s.2).1 (clock s.2).2 (ascii "QS")).path,
    (resolveOnce demoLib s.1 (clock s.2).1 (clock s.2).2 (ascii "QS")).err)
      = (ipns ++ ascii "QS", none)
  rw [h.1, h.2.1]
  decide

/-- Witness of C3: the chain `QA`, `QB`, `/ipfs/Qabc` of two hops resolves at depth 2 and
exceeds depth 1; the self-referential name `QS` exceeds depth 5. -/
theorem depth_bound_witness :
    (ResolveN demoLib (fun _ => (0, 0)) demoChain (ascii "QA") 2).1 = .ok (ascii "/ipfs/Qabc") ∧
    (ResolveN demoLib (fun _ => (0, 0)) demoChain (ascii "QA") 1).1 = .error .depthExceeded ∧
    (ResolveN demoLib (fun _ => (0, 0)) demoChain (ascii "QS") 5).1 = .error .depthExceeded :=
  have hchain : Chain (hop demoLib (fun _ => (0, 0))) ipns 2 (demoChain, 0) (ascii "QA")
      (ascii "/ipfs/Qabc") := ⟨by decide, by decide, by decide, by decide⟩
  ⟨((depth_bound demoLib (fun _ => (0, 0)) demoChain (ascii "QA")).1 2 (ascii "/ipfs/Qabc") 2
      hchain).2.1 (by decide),
   ((depth_bound demoLib (fun _ => (0, 0)) demoChain (ascii "QA")).1 2 (ascii "/ipfs/Qabc") 1
      hchain).2.2 (by decide),
   (depth_bound demoLib (fun _ => (0, 0)) demoChain (ascii "QS")).2 (fun _ => ascii "QS") rfl
      (demoChain_endless (fun _ => (0, 0))) 5⟩

end Namesys
